import Mathlib

/-!
# Verification of the go-mlflow client library

Shallow embedding of `mlflow.go` (package `mlflow`): the query-parameter
flattening helper `AddQuery`, the GET/POST dispatchers `HandleGet` and
`HandlePost`, and the endpoint methods built on them.

Modelling conventions:
* Go's dynamic `interface{}` values passed into `AddQuery` and into JSON
  request bodies are represented by the inductive type `GoValue`, one
  constructor per `case` arm of the type switch in `AddQuery`, plus
  `GoValue.other` for every dynamic type the switch does not handle.
* `url.Values` is a multi-map; `q.Add key v` appends an entry, so the
  query under construction is a list of (key, value) pairs and `Add`
  is list append of a singleton.
* Go errors are represented by `GoError` (the error message); a Go
  `(T, error)` return where both components may be nil is represented
  as `Option T × Option GoError`.
* The I/O effects (request construction, transport, response-body
  reading, JSON serialization) are supplied by explicit "world"
  records (`GetWorld`, `PostWorld`) so that the dispatch control flow
  of the Go code becomes a pure function of the world.
* `time.Now().Unix()` is modelled by an explicit clock argument `now`.
-/

abbrev GoError := String

/-- Raw response-body bytes ([]byte in Go), modelled as a string. -/
abbrev Bytes := String

/-- A dynamically-typed Go value (`interface{}`), covering exactly the
shapes the `AddQuery` type switch distinguishes; `other` stands for any
dynamic type not handled by the switch (e.g. float64, struct values),
tagged with an uninterpreted description. -/
inductive GoValue where
  | str : String → GoValue
  | int : Int → GoValue
  | int64 : Int → GoValue
  | bool : Bool → GoValue
  | strList : List String → GoValue
  | list : List GoValue → GoValue
  | map : List (String × GoValue) → GoValue
  | other : String → GoValue
deriving Repr

/-- A query multi-map under construction (`url.Values` restricted to the
operations the code uses: `Add` appends an entry). -/
abbrev Query := List (String × String)

mutual

/-- `AddQuery(q, key, value)` from mlflow.go: the type switch on `value`.
Scalars append one stringified entry (`strconv.Itoa` / `FormatInt` /
`FormatBool`); `[]string` loops `q.Add(key, v)`; `[]interface{}` loops
`AddQuery(q, key, v)`; `map[string]interface{}` loops
`AddQuery(q, key+"."+k, v)`; every other dynamic type falls through the
switch leaving `q` unchanged. -/
def AddQuery (q : Query) (key : String) : GoValue → Query
  | .str v => q ++ [(key, v)]
  | .int v => q ++ [(key, toString v)]
  | .int64 v => q ++ [(key, toString v)]
  | .bool v => q ++ [(key, if v then "true" else "false")]
  | .strList vs => addQueryStrings q key vs
  | .list vs => addQueryEach q key vs
  | .map kvs => addQueryNested q key kvs
  | .other _ => q

/-- The `case []string` loop body: `for _, v := range value { q.Add(key, v) }`. -/
def addQueryStrings (q : Query) (key : String) : List String → Query
  | [] => q
  | v :: vs => addQueryStrings (q ++ [(key, v)]) key vs

/-- The `case []interface{}` loop body:
`for _, v := range value { AddQuery(q, key, v) }`. -/
def addQueryEach (q : Query) (key : String) : List GoValue → Query
  | [] => q
  | v :: vs => addQueryEach (AddQuery q key v) key vs

/-- The `case map[string]interface{}` loop body:
`for k, v := range value { AddQuery(q, key+"."+k, v) }` (map iteration
order determinized to list order). -/
def addQueryNested (q : Query) (key : String) : List (String × GoValue) → Query
  | [] => q
  | (k, v) :: kvs => addQueryNested (AddQuery q (key ++ "." ++ k) v) key kvs

end

/-- The query-building loop of `HandleGet`:
`for key, value := range params { AddQuery(q, key, value) }`, starting
from the empty query of the endpoint URLs (map iteration order
determinized to list order). -/
def flattenParams (params : List (String × GoValue)) : Query :=
  params.foldl (fun q kv => AddQuery q kv.1 kv.2) []

/-- An HTTP response as the dispatchers observe it: the status code, and
the outcome of `ioutil.ReadAll(resp.Body)` (which may itself fail). -/
structure HttpResponse where
  StatusCode : Nat
  bodyRead : Except GoError Bytes

/-- The effects a `HandleGet` call depends on: whether
`http.NewRequest("GET", url, nil)` fails for the given URL, and the
outcome of `p.Client.Do(req)` as a function of the URL and the flattened
query attached to the request. -/
structure GetWorld where
  newRequestErr : String → Option GoError
  doRequest : String → Query → Except GoError HttpResponse

/-- The effects a `HandlePost` call depends on: the outcome of
`json.Marshal(request)`, whether `http.NewRequest("POST", url, body)`
fails, and the outcome of `p.Client.Do(req)` as a function of the URL
and the marshalled body. -/
structure PostWorld where
  marshal : GoValue → Except GoError Bytes
  newRequestErr : String → Option GoError
  doRequest : String → Bytes → Except GoError HttpResponse

/-- `(p *Client) HandleGet(url, params)` from mlflow.go: build the
request (propagating a `NewRequest` error), flatten `params` into the
query, execute, read the body (propagating transport/read errors), and
return the body bytes on status 200, else `nil, nil`. -/
def HandleGet (w : GetWorld) (url : String) (params : List (String × GoValue)) :
    Option Bytes × Option GoError :=
  match w.newRequestErr url with
  | some e => (none, some e)
  | none =>
    match w.doRequest url (flattenParams params) with
    | .error e => (none, some e)
    | .ok resp =>
      match resp.bodyRead with
      | .error e => (none, some e)
      | .ok body =>
        if resp.StatusCode == 200 then (some body, none) else (none, none)

/-- `(p *Client) HandlePost(url, request)` from mlflow.go: marshal the
request to JSON (propagating the error), build the request, execute,
read the body, and return the body bytes on status 200, else `nil, nil`. -/
def HandlePost (w : PostWorld) (url : String) (request : GoValue) :
    Option Bytes × Option GoError :=
  match w.marshal request with
  | .error e => (none, some e)
  | .ok b =>
    match w.newRequestErr url with
    | some e => (none, some e)
    | none =>
      match w.doRequest url b with
      | .error e => (none, some e)
      | .ok resp =>
        match resp.bodyRead with
        | .error e => (none, some e)
        | .ok body =>
          if resp.StatusCode == 200 then (some body, none) else (none, none)

/-- `json.Unmarshal(body, &response)` applied to the possibly-nil byte
slice returned by a dispatcher. Go's `encoding/json` fails with the
SyntaxError "unexpected end of JSON input" whenever the input slice is
nil or empty, before inspecting the target type; the parser for non-nil
bytes into the concrete response type is supplied abstractly. -/
def jsonUnmarshal (parse : Bytes → Except GoError α) : Option Bytes → Except GoError α
  | none => .error "unexpected end of JSON input"
  | some b => parse b

/-- The `Experiment` record. -/
structure Experiment where
  ExperimentId : String
  Name : String
  ArtifactLocation : String
  LifecycleStage : String
deriving Repr, DecidableEq

/-- `ResponseExperiment`: wrapper extracting the `experiment` field. -/
structure ResponseExperiment where
  Experiment : Experiment
deriving Repr, DecidableEq

/-- `ResponseCreateExperiment`: wrapper extracting `experiment_id`. -/
structure ResponseCreateExperiment where
  ExperimentId : String
deriving Repr, DecidableEq

/-- The `RunInfo` record (timestamps in epoch seconds as int64). -/
structure RunInfo where
  RunUUid : String
  ExperimentId : String
  UserId : String
  Status : String
  StartTime : Int
  EndTime : Int
  ArtifactUri : String
  LifecycleStage : String
  RunId : String
deriving Repr, DecidableEq

/-- The `Run` record: info plus an open-ended `map[string]interface{}`
of run data. -/
structure Run where
  Info : RunInfo
  Data : List (String × GoValue)
deriving Repr

/-- `ResponseRun`: wrapper extracting the `run` field. -/
structure ResponseRun where
  Run : Run
deriving Repr

/-- `ResponseRunUpdate`: wrapper extracting the `run_info` field. -/
structure ResponseRunUpdate where
  Info : RunInfo
deriving Repr, DecidableEq

/-- The `RunStatus` string enumeration. -/
inductive RunStatus where
  | Running | Scheduled | Finished | Failed | Killed | Uninitialized
deriving Repr, DecidableEq

/-- The string value of each `RunStatus` constant. -/
def RunStatus.toStr : RunStatus → String
  | .Running => "RUNNING"
  | .Scheduled => "SCHEDULED"
  | .Finished => "FINISHED"
  | .Failed => "FAILED"
  | .Killed => "KILLED"
  | .Uninitialized => "UNINITIALIZED"

/-- The `Client` record (the `http.Client` handle lives in the worlds). -/
structure Client where
  BaseUrl : String

/-- `New(url)`: construct a client over the default HTTP client. -/
def New (url : String) : Client := { BaseUrl := url }

/-- `(p *Client) GetExperiment(experimentId)`: GET
`/api/2.0/mlflow/experiments/get` with query param `experiment_id`,
then unmarshal into `ResponseExperiment` and extract the experiment. -/
def GetExperiment (p : Client) (w : GetWorld)
    (parse : Bytes → Except GoError ResponseExperiment) (experimentId : String) :
    Option Experiment × Option GoError :=
  let url := p.BaseUrl ++ "/api/2.0/mlflow/experiments/get"
  let r := HandleGet w url [("experiment_id", .str experimentId)]
  match r.2 with
  | some e => (none, some e)
  | none =>
    match jsonUnmarshal parse r.1 with
    | .error e => (none, some e)
    | .ok response => (some response.Experiment, none)

/-- `(p *Client) GetExperimentsByName(name)`: GET
`/api/2.0/mlflow/experiments/get-by-name` with query param
`experiment_name`, then unmarshal into `ResponseExperiment`. -/
def GetExperimentsByName (p : Client) (w : GetWorld)
    (parse : Bytes → Except GoError ResponseExperiment) (name : String) :
    Option Experiment × Option GoError :=
  let url := p.BaseUrl ++ "/api/2.0/mlflow/experiments/get-by-name"
  let r := HandleGet w url [("experiment_name", .str name)]
  match r.2 with
  | some e => (none, some e)
  | none =>
    match jsonUnmarshal parse r.1 with
    | .error e => (none, some e)
    | .ok response => (some response.Experiment, none)

/-- `(p *Client) CreateExperiment(name)`: POST
`/api/2.0/mlflow/experiments/create` with body `{name}`, then unmarshal
into `ResponseCreateExperiment` and return the new experiment id. -/
def CreateExperiment (p : Client) (w : PostWorld)
    (parse : Bytes → Except GoError ResponseCreateExperiment) (name : String) :
    Option String × Option GoError :=
  let url := p.BaseUrl ++ "/api/2.0/mlflow/experiments/create"
  let r := HandlePost w url (.map [("name", .str name)])
  match r.2 with
  | some e => (none, some e)
  | none =>
    match jsonUnmarshal parse r.1 with
    | .error e => (none, some e)
    | .ok response => (some response.ExperimentId, none)

/-- The `[]map[string]string` tags argument embedded as a `GoValue`. -/
def tagsValue (tags : List (List (String × String))) : GoValue :=
  .list (tags.map fun m => .map (m.map fun kv => (kv.1, .str kv.2)))

/-- `(p *Client) CreateRunWithStartTime(experimentId, startTime, tags)`:
POST `/api/2.0/mlflow/runs/create` with body
`{experiment_id, start_time, tags}`, then unmarshal into `ResponseRun`. -/
def CreateRunWithStartTime (p : Client) (w : PostWorld)
    (parse : Bytes → Except GoError ResponseRun) (experimentId : String)
    (startTime : Int) (tags : List (List (String × String))) :
    Option Run × Option GoError :=
  let url := p.BaseUrl ++ "/api/2.0/mlflow/runs/create"
  let r := HandlePost w url (.map [("experiment_id", .str experimentId),
    ("start_time", .int64 startTime), ("tags", tagsValue tags)])
  match r.2 with
  | some e => (none, some e)
  | none =>
    match jsonUnmarshal parse r.1 with
    | .error e => (none, some e)
    | .ok response => (some response.Run, none)

/-- `(p *Client) CreateRun(experimentId, tags)`: delegates to
`CreateRunWithStartTime` with `time.Now().Unix()`, modelled by the
explicit clock argument `now`. -/
def CreateRun (p : Client) (w : PostWorld)
    (parse : Bytes → Except GoError ResponseRun) (now : Int)
    (experimentId : String) (tags : List (List (String × String))) :
    Option Run × Option GoError :=
  CreateRunWithStartTime p w parse experimentId now tags

/-- `(p *Client) UpdateRunWithEndTime(runId, status, endTime)`: POST
`/api/2.0/mlflow/runs/update` with body `{run_id, status, end_time}`,
then unmarshal into `ResponseRunUpdate`. -/
def UpdateRunWithEndTime (p : Client) (w : PostWorld)
    (parse : Bytes → Except GoError ResponseRunUpdate) (runId : String)
    (status : RunStatus) (endTime : Int) :
    Option RunInfo × Option GoError :=
  let url := p.BaseUrl ++ "/api/2.0/mlflow/runs/update"
  let r := HandlePost w url (.map [("run_id", .str runId),
    ("status", .str status.toStr), ("end_time", .int64 endTime)])
  match r.2 with
  | some e => (none, some e)
  | none =>
    match jsonUnmarshal parse r.1 with
    | .error e => (none, some e)
    | .ok response => (some response.Info, none)

/-- `(p *Client) UpdateRun(runId, status)`: delegates to
`UpdateRunWithEndTime` with `time.Now().Unix()`, modelled by the
explicit clock argument `now`. -/
def UpdateRun (p : Client) (w : PostWorld)
    (parse : Bytes → Except GoError ResponseRunUpdate) (now : Int)
    (runId : String) (status : RunStatus) :
    Option RunInfo × Option GoError :=
  UpdateRunWithEndTime p w parse runId status now

/-- `(p *Client) DeleteRun(runId)`: POST `/api/2.0/mlflow/runs/delete`
with body `{run_id}`, discard the response bytes, and return only the
error component of `HandlePost`. -/
def DeleteRun (p : Client) (w : PostWorld) (runId : String) : Option GoError :=
  let url := p.BaseUrl ++ "/api/2.0/mlflow/runs/delete"
  (HandlePost w url (.map [("run_id", .str runId)])).2

/-- `(p *Client) GetRun(runId)`: GET `/api/2.0/mlflow/runs/get` with
query param `run_id`, then unmarshal into `ResponseRun`. -/
def GetRun (p : Client) (w : GetWorld)
    (parse : Bytes → Except GoError ResponseRun) (runId : String) :
    Option Run × Option GoError :=
  let url := p.BaseUrl ++ "/api/2.0/mlflow/runs/get"
  let r := HandleGet w url [("run_id", .str runId)]
  match r.2 with
  | some e => (none, some e)
  | none =>
    match jsonUnmarshal parse r.1 with
    | .error e => (none, some e)
    | .ok response => (some response.Run, none)



/-! ## Helper lemmas about `AddQuery` -/

theorem addQueryStrings_append (q₁ q₂ : Query) (key : String) (vs : List String) :
    addQueryStrings (q₁ ++ q₂) key vs = q₁ ++ addQueryStrings q₂ key vs := by
  induction vs generalizing q₂ with
  | nil => rfl
  | cons v vs ih =>
    simp only [addQueryStrings]
    rw [List.append_assoc]
    exact ih (q₂ ++ [(key, v)])

mutual

theorem AddQuery_append (q₁ q₂ : Query) (key : String) (v : GoValue) :
    AddQuery (q₁ ++ q₂) key v = q₁ ++ AddQuery q₂ key v := by
  cases v with
  | str s => simp [AddQuery]
  | int n => simp [AddQuery]
  | int64 n => simp [AddQuery]
  | bool b => simp [AddQuery]
  | strList vs =>
    simp only [AddQuery]
    exact addQueryStrings_append q₁ q₂ key vs
  | list vs =>
    simp only [AddQuery]
    exact addQueryEach_append q₁ q₂ key vs
  | map kvs =>
    simp only [AddQuery]
    exact addQueryNested_append q₁ q₂ key kvs
  | other s => simp [AddQuery]

theorem addQueryEach_append (q₁ q₂ : Query) (key : String) (vs : List GoValue) :
    addQueryEach (q₁ ++ q₂) key vs = q₁ ++ addQueryEach q₂ key vs := by
  cases vs with
  | nil => rfl
  | cons v vs =>
    simp only [addQueryEach]
    rw [AddQuery_append q₁ q₂ key v]
    exact addQueryEach_append q₁ (AddQuery q₂ key v) key vs

theorem addQueryNested_append (q₁ q₂ : Query) (key : String)
    (kvs : List (String × GoValue)) :
    addQueryNested (q₁ ++ q₂) key kvs = q₁ ++ addQueryNested q₂ key kvs := by
  cases kvs with
  | nil => rfl
  | cons kv kvs =>
    obtain ⟨k, v⟩ := kv
    simp only [addQueryNested]
    rw [AddQuery_append q₁ q₂ (key ++ "." ++ k) v]
    exact addQueryNested_append q₁ (AddQuery q₂ (key ++ "." ++ k) v) key kvs

end

/-- `AddQuery` only appends: its result is the initial query followed by
the entries it generates from scratch. -/
theorem AddQuery_eq_append (q : Query) (key : String) (v : GoValue) :
    AddQuery q key v = q ++ AddQuery [] key v := by
  simpa using AddQuery_append q [] key v

/-- The key of an entry generated for `key` is `key` itself or `key`
extended by a dot-joined suffix. -/
def keyFits (key : String) (p : String × String) : Prop :=
  p.1 = key ∨ ∃ s, p.1 = key ++ "." ++ s

theorem keyFits_extend (key k : String) (p : String × String)
    (h : keyFits (key ++ "." ++ k) p) : keyFits key p := by
  rcases h with h | ⟨s, h⟩
  · exact Or.inr ⟨k, h⟩
  · refine Or.inr ⟨k ++ "." ++ s, ?_⟩
    rw [h]
    simp [String.append_assoc]

mutual

theorem AddQuery_mem (q : Query) (key : String) (v : GoValue)
    (p : String × String) (hp : p ∈ AddQuery q key v) : p ∈ q ∨ keyFits key p := by
  cases v with
  | str s =>
    simp only [AddQuery, List.mem_append, List.mem_singleton] at hp
    rcases hp with h | h
    · exact Or.inl h
    · exact Or.inr (Or.inl (by rw [h]))
  | int n =>
    simp only [AddQuery, List.mem_append, List.mem_singleton] at hp
    rcases hp with h | h
    · exact Or.inl h
    · exact Or.inr (Or.inl (by rw [h]))
  | int64 n =>
    simp only [AddQuery, List.mem_append, List.mem_singleton] at hp
    rcases hp with h | h
    · exact Or.inl h
    · exact Or.inr (Or.inl (by rw [h]))
  | bool b =>
    simp only [AddQuery, List.mem_append, List.mem_singleton] at hp
    rcases hp with h | h
    · exact Or.inl h
    · exact Or.inr (Or.inl (by rw [h]))
  | strList vs =>
    simp only [AddQuery] at hp
    exact addQueryStrings_mem q key vs p hp
  | list vs =>
    simp only [AddQuery] at hp
    exact addQueryEach_mem q key vs p hp
  | map kvs =>
    simp only [AddQuery] at hp
    exact addQueryNested_mem q key kvs p hp
  | other s =>
    simp only [AddQuery] at hp
    exact Or.inl hp

theorem addQueryStrings_mem (q : Query) (key : String) (vs : List String)
    (p : String × String) (hp : p ∈ addQueryStrings q key vs) :
    p ∈ q ∨ keyFits key p := by
  cases vs with
  | nil => exact Or.inl hp
  | cons v vs =>
    simp only [addQueryStrings] at hp
    rcases addQueryStrings_mem (q ++ [(key, v)]) key vs p hp with h | h
    · simp only [List.mem_append, List.mem_singleton] at h
      rcases h with h | h
      · exact Or.inl h
      · exact Or.inr (Or.inl (by rw [h]))
    · exact Or.inr h

theorem addQueryEach_mem (q : Query) (key : String) (vs : List GoValue)
    (p : String × String) (hp : p ∈ addQueryEach q key vs) :
    p ∈ q ∨ keyFits key p := by
  cases vs with
  | nil => exact Or.inl hp
  | cons v vs =>
    simp only [addQueryEach] at hp
    rcases addQueryEach_mem (AddQuery q key v) key vs p hp with h | h
    · exact AddQuery_mem q key v p h
    · exact Or.inr h

theorem addQueryNested_mem (q : Query) (key : String)
    (kvs : List (String × GoValue)) (p : String × String)
    (hp : p ∈ addQueryNested q key kvs) : p ∈ q ∨ keyFits key p := by
  cases kvs with
  | nil => exact Or.inl hp
  | cons kv kvs =>
    obtain ⟨k, v⟩ := kv
    simp only [addQueryNested] at hp
    rcases addQueryNested_mem (AddQuery q (key ++ "." ++ k) v) key kvs p hp with h | h
    · rcases AddQuery_mem q (key ++ "." ++ k) v p h with h₂ | h₂
      · exact Or.inl h₂
      · exact Or.inr (keyFits_extend key k p h₂)
    · exact Or.inr h

end

/-- Stringification performed by the scalar arms of the type switch
(`strconv.Itoa`, `strconv.FormatInt`, `strconv.FormatBool`); `none` for
the non-scalar arms. -/
def scalarString : GoValue → Option String
  | .str v => some v
  | .int v => some (toString v)
  | .int64 v => some (toString v)
  | .bool v => some (if v then "true" else "false")
  | _ => none

theorem AddQuery_scalar (q : Query) (key : String) (v : GoValue) (s : String)
    (h : scalarString v = some s) : AddQuery q key v = q ++ [(key, s)] := by
  cases v <;> simp_all [scalarString, AddQuery]

theorem addQueryStrings_eq_map (q : Query) (key : String) (vs : List String) :
    addQueryStrings q key vs = q ++ vs.map (fun v => (key, v)) := by
  induction vs generalizing q with
  | nil => simp [addQueryStrings]
  | cons v vs ih => simp [addQueryStrings, ih]

theorem addQueryEach_eq_foldl (q : Query) (key : String) (vs : List GoValue) :
    addQueryEach q key vs = vs.foldl (fun acc v => AddQuery acc key v) q := by
  induction vs generalizing q with
  | nil => rfl
  | cons v vs ih =>
    simp only [addQueryEach, List.foldl_cons]
    exact ih _

theorem addQueryNested_eq_foldl (q : Query) (key : String)
    (kvs : List (String × GoValue)) :
    addQueryNested q key kvs
      = kvs.foldl (fun acc kv => AddQuery acc (key ++ "." ++ kv.1) kv.2) q := by
  induction kvs generalizing q with
  | nil => rfl
  | cons kv kvs ih =>
    obtain ⟨k, v⟩ := kv
    simp only [addQueryNested, List.foldl_cons]
    exact ih _

theorem foldl_AddQuery_scalar (params : List (String × GoValue)) (q : Query)
    (h : ∀ kv ∈ params, (scalarString kv.2).isSome = true) :
    params.foldl (fun acc kv => AddQuery acc kv.1 kv.2) q
      = q ++ params.map (fun kv => (kv.1, (scalarString kv.2).getD "")) := by
  induction params generalizing q with
  | nil => simp
  | cons kv kvs ih =>
    obtain ⟨k, v⟩ := kv
    have hv := h (k, v) (List.mem_cons_self _ _)
    obtain ⟨s, hs⟩ := Option.isSome_iff_exists.mp hv
    simp only [List.foldl_cons, List.map_cons]
    rw [AddQuery_scalar q k v s hs,
      ih _ (fun kv hkv => h kv (List.mem_cons_of_mem _ hkv))]
    simp [hs]

/-! ## Concrete worlds used by counterexamples and witnesses -/

/-- A world in which request construction succeeds and every GET request
yields the given HTTP response. -/
def constGetWorld (resp : HttpResponse) : GetWorld :=
  ⟨fun _ => none, fun _ _ => .ok resp⟩

/-- A world in which serialization and request construction succeed and
every POST request yields the given HTTP response. -/
def constPostWorld (resp : HttpResponse) : PostWorld :=
  ⟨fun _ => .ok "{}", fun _ => none, fun _ _ => .ok resp⟩

/-- A world whose GET transport always fails (connection refused). -/
def downGetWorld : GetWorld :=
  ⟨fun _ => none, fun _ _ => .error "connection refused"⟩

/-- A world whose POST transport always fails (connection refused). -/
def downPostWorld : PostWorld :=
  ⟨fun _ => .ok "{}", fun _ => none, fun _ _ => .error "connection refused"⟩

/-- A world in which `json.Marshal` fails on every request value. -/
def badMarshalWorld : PostWorld :=
  ⟨fun _ => .error "json: unsupported type", fun _ => none,
    fun _ _ => .ok ⟨200, .ok "{}"⟩⟩

/-- An abstract parser for `ResponseExperiment` (never invoked in the
situations under study). -/
def parseExperimentAbs : Bytes → Except GoError ResponseExperiment :=
  fun _ => .error "unused"

/-! ## Claim theorems -/

/-- C2: for every key and every scalar value (string, int, int64, bool),
`AddQuery` appends exactly one entry, under the given key, whose value
is the scalar's stringification; hence flattening a parameter mapping of
scalars yields exactly one query entry per key of the mapping. -/
theorem scalar_single_entry :
    (∀ (q : Query) (key : String) (v : GoValue) (s : String),
        scalarString v = some s → AddQuery q key v = q ++ [(key, s)]) ∧
    (∀ params : List (String × GoValue),
        (∀ kv ∈ params, (scalarString kv.2).isSome = true) →
        flattenParams params
          = params.map (fun kv => (kv.1, (scalarString kv.2).getD ""))) := by
  constructor
  · exact AddQuery_scalar
  · intro params h
    simpa [flattenParams] using foldl_AddQuery_scalar params [] h

/-- Witness for C2 at concrete inputs. -/
theorem scalar_single_entry_witness :
    AddQuery [("z", "0")] "k" (.int 7) = [("z", "0"), ("k", "7")] ∧
    flattenParams [("a", .str "x"), ("b", .int (-2)), ("c", .bool true)]
      = [("a", "x"), ("b", "-2"), ("c", "true")] := by
  constructor
  · exact scalar_single_entry.1 [("z", "0")] "k" (.int 7) "7" rfl
  · exact (scalar_single_entry.2
      [("a", .str "x"), ("b", .int (-2)), ("c", .bool true)] (by decide)).trans
      (by decide)

/-- C3: for every key and nested mapping, `AddQuery` recursively
flattens the mapping, emitting each inner key `k` under the joined key
`key ++ "." ++ k`; in particular flattening `{a: {b: 1}}` produces
exactly the entry with key "a.b" and value "1". -/
theorem nested_map_dotted_keys :
    (∀ (q : Query) (key : String) (kvs : List (String × GoValue)),
        AddQuery q key (.map kvs)
          = kvs.foldl (fun acc kv => AddQuery acc (key ++ "." ++ kv.1) kv.2) q) ∧
    flattenParams [("a", .map [("b", .int 1)])] = [("a.b", "1")] := by
  constructor
  · intro q key kvs
    simpa only [AddQuery] using addQueryNested_eq_foldl q key kvs
  · decide

/-- C4: for every key and list of strings, `AddQuery` adds one entry per
element under the same key, in list order; in particular a mapping with
value `["x","y"]` under key "k" flattens to two entries both keyed "k". -/
theorem string_list_repeated_key :
    (∀ (q : Query) (key : String) (xs : List String),
        AddQuery q key (.strList xs) = q ++ xs.map (fun x => (key, x))) ∧
    flattenParams [("k", .strList ["x", "y"])] = [("k", "x"), ("k", "y")] := by
  constructor
  · intro q key xs
    simpa only [AddQuery] using addQueryStrings_eq_map q key xs
  · decide

/-- C5: for every key and list of arbitrarily-typed values, `AddQuery`
recursively flattens each element under the same key, in order — i.e. it
behaves as folding `AddQuery` over the elements. -/
theorem list_elementwise_flattening (q : Query) (key : String) (vs : List GoValue) :
    AddQuery q key (.list vs) = vs.foldl (fun acc v => AddQuery acc key v) q := by
  simpa only [AddQuery] using addQueryEach_eq_foldl q key vs

/-- C6: for every key and every value of a dynamic type outside the
supported shapes, `AddQuery` emits no entry and raises no error, leaving
the query unchanged (the type switch has no default arm). -/
theorem unsupported_value_dropped (q : Query) (key : String) (d : String) :
    AddQuery q key (.other d) = q := by
  simp [AddQuery]

/-- C10: `AddQuery` only appends to the query multi-map — every entry of
the initial query survives unchanged in place, and every newly added
entry is keyed by the given key or by the key extended by a dot-joined
suffix. -/
theorem addQuery_append_only (q : Query) (key : String) (v : GoValue) :
    AddQuery q key v = q ++ AddQuery [] key v ∧
    List.Forall (keyFits key) (AddQuery [] key v) := by
  refine ⟨AddQuery_eq_append q key v, ?_⟩
  rw [List.forall_iff_forall_mem]
  intro p hp
  rcases AddQuery_mem [] key v p hp with h | h
  · exact absurd h (List.not_mem_nil p)
  · exact h

/-- C7: a transport-level failure of the underlying request — and, for
POST, a JSON serialization failure — is returned to the caller as the
error, together with a nil body. -/
theorem dispatch_failure_surfaced :
    (∀ (w : GetWorld) (url : String) (params : List (String × GoValue)) (e : GoError),
        w.newRequestErr url = none →
        w.doRequest url (flattenParams params) = .error e →
        HandleGet w url params = (none, some e)) ∧
    (∀ (w : PostWorld) (url : String) (request : GoValue) (e : GoError),
        w.marshal request = .error e →
        HandlePost w url request = (none, some e)) ∧
    (∀ (w : PostWorld) (url : String) (request : GoValue) (b : Bytes) (e : GoError),
        w.marshal request = .ok b →
        w.newRequestErr url = none →
        w.doRequest url b = .error e →
        HandlePost w url request = (none, some e)) := by
  refine ⟨?_, ?_, ?_⟩
  · intro w url params e h₁ h₂
    simp [HandleGet, h₁, h₂]
  · intro w url request e h
    simp [HandlePost, h]
  · intro w url request b e h₁ h₂ h₃
    simp [HandlePost, h₁, h₂, h₃]

/-- Witness for C7 at concrete worlds. -/
theorem dispatch_failure_surfaced_witness :
    HandleGet downGetWorld "http://localhost:5000/x" []
      = (none, some "connection refused") ∧
    HandlePost badMarshalWorld "http://localhost:5000/x" (.map [])
      = (none, some "json: unsupported type") ∧
    HandlePost downPostWorld "http://localhost:5000/x" (.map [])
      = (none, some "connection refused") :=
  ⟨dispatch_failure_surfaced.1 downGetWorld "http://localhost:5000/x" [] "connection refused" rfl rfl,
   dispatch_failure_surfaced.2.1 badMarshalWorld "http://localhost:5000/x" (.map [])
     "json: unsupported type" rfl,
   dispatch_failure_surfaced.2.2 downPostWorld "http://localhost:5000/x" (.map []) "{}"
     "connection refused" rfl rfl rfl⟩

/-- C8: `CreateRun` is `CreateRunWithStartTime` at the current wall-clock
epoch seconds, and `UpdateRun` is `UpdateRunWithEndTime` at the current
wall-clock epoch seconds (`time.Now().Unix()` modelled by the explicit
clock argument `now`). -/
theorem default_time_delegation (p : Client) (w : PostWorld)
    (parseRun : Bytes → Except GoError ResponseRun)
    (parseUpd : Bytes → Except GoError ResponseRunUpdate)
    (now : Int) (experimentId runId : String)
    (tags : List (List (String × String))) (status : RunStatus) :
    CreateRun p w parseRun now experimentId tags
      = CreateRunWithStartTime p w parseRun experimentId now tags ∧
    UpdateRun p w parseUpd now runId status
      = UpdateRunWithEndTime p w parseUpd runId status now :=
  ⟨rfl, rfl⟩

/-- C9: `DeleteRun` returns a nil error for every HTTP response, of any
status, because it discards the response bytes and never deserializes
them; an error can only arise from serialization, request construction,
transport, or reading the body. -/
theorem deleteRun_nil_error (p : Client) (w : PostWorld) (runId : String)
    (mb : Bytes) (resp : HttpResponse) (body : Bytes)
    (hm : w.marshal (.map [("run_id", .str runId)]) = .ok mb)
    (hr : w.newRequestErr (p.BaseUrl ++ "/api/2.0/mlflow/runs/delete") = none)
    (hd : w.doRequest (p.BaseUrl ++ "/api/2.0/mlflow/runs/delete") mb = .ok resp)
    (hb : resp.bodyRead = .ok body) :
    DeleteRun p w runId = none := by
  simp only [DeleteRun, HandlePost, hm, hr, hd, hb]
  split <;> rfl

/-- Witness for C9 on a concrete 404 response. -/
theorem deleteRun_nil_error_witness :
    DeleteRun (New "http://localhost:5000") (constPostWorld ⟨404, .ok ""⟩) "r1" = none :=
  deleteRun_nil_error (New "http://localhost:5000") (constPostWorld ⟨404, .ok ""⟩)
    "r1" "{}" ⟨404, .ok ""⟩ "" rfl rfl rfl rfl

/-- C1 (counterexample): on a concrete 404 response, `GetExperiment`
returns a nil result but NOT a nil error — unmarshalling the nil body
returned by the dispatcher fails with a JSON syntax error, refuting the
claim that every endpoint yields a nil error on a non-200 status. -/
theorem non200_nil_error_refuted :
    GetExperiment (New "http://localhost:5000")
        (constGetWorld ⟨404, .ok ""⟩) parseExperimentAbs "1"
      = (none, some "unexpected end of JSON input") ∧
    (GetExperiment (New "http://localhost:5000")
        (constGetWorld ⟨404, .ok ""⟩) parseExperimentAbs "1").2 ≠ none := by
  constructor
  · decide
  · decide

/-- C1 (amended): on any non-200 response whose body read succeeds,
every endpoint operation returns a nil/empty result, but only `DeleteRun`
returns a nil error: each endpoint that deserializes a response body
receives a nil body from the dispatcher and returns the non-nil JSON
error "unexpected end of JSON input". -/
theorem non200_endpoints_unmarshal_error (st : Nat) (body : Bytes) (hst : st ≠ 200)
    (p : Client)
    (pe pn : Bytes → Except GoError ResponseExperiment)
    (pc : Bytes → Except GoError ResponseCreateExperiment)
    (pr pg : Bytes → Except GoError ResponseRun)
    (pu : Bytes → Except GoError ResponseRunUpdate)
    (experimentId name runId : String) (startTime now : Int)
    (tags : List (List (String × String))) (status : RunStatus) :
    GetExperiment p (constGetWorld ⟨st, .ok body⟩) pe experimentId
      = (none, some "unexpected end of JSON input") ∧
    GetExperimentsByName p (constGetWorld ⟨st, .ok body⟩) pn name
      = (none, some "unexpected end of JSON input") ∧
    CreateExperiment p (constPostWorld ⟨st, .ok body⟩) pc name
      = (none, some "unexpected end of JSON input") ∧
    CreateRunWithStartTime p (constPostWorld ⟨st, .ok body⟩) pr experimentId startTime tags
      = (none, some "unexpected end of JSON input") ∧
    CreateRun p (constPostWorld ⟨st, .ok body⟩) pr now experimentId tags
      = (none, some "unexpected end of JSON input") ∧
    UpdateRunWithEndTime p (constPostWorld ⟨st, .ok body⟩) pu runId status now
      = (none, some "unexpected end of JSON input") ∧
    UpdateRun p (constPostWorld ⟨st, .ok body⟩) pu now runId status
      = (none, some "unexpected end of JSON input") ∧
    GetRun p (constGetWorld ⟨st, .ok body⟩) pg runId
      = (none, some "unexpected end of JSON input") ∧
    DeleteRun p (constPostWorld ⟨st, .ok body⟩) runId = none := by
  have h200 : (st == 200) = false := by simpa using hst
  refine ⟨?_, ?_, ?_, ?_, ?_, ?_, ?_, ?_, ?_⟩ <;>
    simp [GetExperiment, GetExperimentsByName, CreateExperiment, CreateRunWithStartTime,
      CreateRun, UpdateRunWithEndTime, UpdateRun, GetRun, DeleteRun, HandleGet,
      HandlePost, constGetWorld, constPostWorld, jsonUnmarshal, h200]

/-- Witness for the amended C1 at a concrete 503 response. -/
theorem non200_endpoints_unmarshal_error_witness :
    GetExperiment (New "http://localhost:5000") (constGetWorld ⟨503, .ok "oops"⟩)
        parseExperimentAbs "1"
      = (none, some "unexpected end of JSON input") ∧
    DeleteRun (New "http://localhost:5000") (constPostWorld ⟨503, .ok "oops"⟩) "r1"
      = none := by
  have h := non200_endpoints_unmarshal_error 503 "oops" (by decide)
    (New "http://localhost:5000") parseExperimentAbs parseExperimentAbs
    (fun _ => .error "unused") (fun _ => .error "unused") (fun _ => .error "unused")
    (fun _ => .error "unused") "1" "n" "r1" 0 0 [] RunStatus.Finished
  exact ⟨h.1, h.2.2.2.2.2.2.2.2⟩
